import Mathlib

/-!
# Verification of the Stats_Arb_Spread pairs-trading engine

Shallow embedding, in Lean 4, of the statistical signal engine and the
trading state machine of the repository (files `func_trades_zscore.py`,
`func_cointegration_daily.py`, `func_mean_halflife.py`,
`func_rank_zscore.py`, `func_exec_mean_zscore.py`).

Modelling conventions:
* Python floats are modelled as exact rationals (`ℚ`); quantities whose
  value genuinely involves irrational functions (square roots, logarithms)
  live in `ℝ`.
* `NaN` and `None` results are both modelled as `none : Option _`; a branch
  of the source that produces `NaN`/`None` is translated to `none`.
* Exceptions raised by library calls are modelled with `Except`/`Option`
  return types; a `try/except` block of the source becomes a `match` on
  those values.
* The exchange and the statistical library (`statsmodels.coint`) are
  external collaborators; they enter the embedding as explicit parameters
  (`CycleEnv`, `CointBackend`).
-/

attribute [local semireducible] Rat.add Rat.mul Rat.inv Rat.sub Rat.ofScientific

namespace StatArb

/-! ## Trading parameters (`func_trades_zscore.py`, lines 30-35) -/

def POSITION_SIZE : ℚ := 50
def LEVERAGE : ℚ := 10
def STOP_LOSS_PERCENT : ℚ := 3 / 100
def ZSCORE_THRESHOLD : ℚ := -(3 / 2)
def TP_BUFFER : ℚ := 2 / 10000

/-! ## Orders and close intents (`func_trades_zscore.py`) -/

/-- Order side of a market order. -/
inductive Side where
  | buy
  | sell
deriving DecidableEq

/-- Flip a side: closing a `buy` leg sells it and vice versa
(`close_positions`, line 106). -/
def flipSide : Side → Side
  | .buy => .sell
  | .sell => .buy

/-- An order as returned by the exchange: requested `amount` and actually
`filled` quantity may differ on a partial fill. -/
structure Order where
  symbol : String
  side : Side
  amount : ℚ
  filled : ℚ
deriving DecidableEq

/-- A market order intent submitted while closing.  `close_positions`
(lines 104-114) calls `create_order(symbol, type='market', side=opposite,
amount=order['filled'])`; no `reduceOnly` parameter is passed, so the
ccxt default `reduceOnly = false` applies. -/
structure CloseIntent where
  symbol : String
  side : Side
  amount : ℚ
  reduceOnly : Bool
deriving DecidableEq

/-- The close order built for one open order (`close_positions`,
lines 104-114). -/
def closeOrder (o : Order) : CloseIntent :=
  { symbol := o.symbol
    side := flipSide o.side
    amount := o.filled
    reduceOnly := false }

/-- `close_positions` (lines 101-121): one opposite-side market order per
tracked order, sized at the filled quantity. -/
def close_positions (orders : List Order) : List CloseIntent :=
  orders.map closeOrder

/-! ## Monitor evaluation: `check_positions` (lines 123-161) -/

/-- Which branch of `check_positions` decided the outcome.  The source
returns `True` from the stop-loss branch (line 140), `False` when the
z-score fetch failed (line 146), `True` from the take-profit branch
(line 156), `False` otherwise (line 158). -/
inductive CheckOutcome where
  | stopLoss
  | zscoreFail
  | takeProfit
  | hold
deriving DecidableEq

/-- Whether the outcome closes the position (the boolean the Python
function actually returns). -/
def CheckOutcome.shouldClose : CheckOutcome → Bool
  | .stopLoss => true
  | .takeProfit => true
  | _ => false

/-- `check_positions` (lines 123-161): stop-loss test on the total
unrealized PnL first (line 138); only afterwards is the current z-score
fetched (line 143, `none` models the fetch returning `None`) and the
take-profit test run (line 154). -/
def check_positions (totalPnl : ℚ) (currentZ : Option ℚ) (meanZ : ℚ) :
    CheckOutcome :=
  if totalPnl ≤ -STOP_LOSS_PERCENT * POSITION_SIZE * 2 then .stopLoss
  else
    match currentZ with
    | none => .zscoreFail
    | some z => if |z - meanZ| ≤ TP_BUFFER then .takeProfit else .hold

/-! ## The orchestration cycle (`main`, lines 254-340) -/

/-- A pair-position: the two leg orders returned by `open_positions`. -/
abbrev PairPos := Order × Order

/-- State carried by `main` across cycles: `tracked` is the
`current_orders` variable; `openPs` is the set of pair-positions actually
open on the exchange (each successful entry adds one, each successful
close removes the closed one). -/
structure TradeState where
  tracked : Option PairPos
  openPs : List PairPos
deriving DecidableEq

/-- Everything the environment (clock, CSV files, exchange) supplies to
one iteration of the `while True` loop in `main`:
* `minuteIsOne`: whether `current_time.minute == 1` (line 259);
* `prepOk`: whether `prepare_data_files()` and the CSV reads succeed
  (lines 263-287);
* `bestZ`: the best (most negative) current z-score among candidate pairs,
  `none` when no candidate row yields one (lines 290-307);
* `balanceOk`: result of `check_balance` (line 319);
* `openResult`: result of `open_positions` (line 321), `none` when it
  raised and returned `None`;
* `closeSignal`: result of `check_positions` (line 334);
* `closeOk`: whether `close_positions` ran without an exchange exception
  (its internal `try/except` swallows the error either way, lines 120-121). -/
structure CycleEnv where
  minuteIsOne : Bool
  prepOk : Bool
  bestZ : Option ℚ
  balanceOk : Bool
  openResult : Option PairPos
  closeSignal : Bool
  closeOk : Bool

/-- One iteration of the `while True` loop of `main` (lines 254-340).
The hourly branch (line 259) runs entry evaluation whether or not
`current_orders` is set, and overwrites `current_orders` with the result
of `open_positions` (line 321).  The monitor branch (line 332) runs only
when the minute is not 1 and `current_orders` is set, and sets
`current_orders = None` after calling `close_positions` (line 336)
regardless of whether the close succeeded on the exchange. -/
def cycleStep (s : TradeState) (e : CycleEnv) : TradeState :=
  if e.minuteIsOne then
    if !e.prepOk then s
    else
      match e.bestZ with
      | none => s
      | some bz =>
        if bz < ZSCORE_THRESHOLD then
          if e.balanceOk then
            match e.openResult with
            | some pos => { tracked := some pos, openPs := pos :: s.openPs }
            | none => { tracked := none, openPs := s.openPs }
          else s
        else s
  else
    match s.tracked with
    | some pos =>
      if e.closeSignal then
        { tracked := none
          openPs := if e.closeOk then s.openPs.erase pos else s.openPs }
      else s
    | none => s

/-- Concrete legs used in counterexamples and witnesses. -/
def oA : Order := ⟨"AAVE/USDT", .buy, 5, 3⟩
def oB : Order := ⟨"BNB/USDT", .sell, 2, 2⟩
def oC : Order := ⟨"CRV/USDT", .buy, 1, 1⟩
def oD : Order := ⟨"DOGE/USDT", .sell, 4, 4⟩

def posAB : PairPos := (oA, oB)
def posCD : PairPos := (oC, oD)

/-- An hourly-analysis cycle that finds a qualifying candidate
(z = -2 < -1.5), passes the balance check and opens `pos`. -/
def hourlyEntryEnv (pos : PairPos) : CycleEnv :=
  { minuteIsOne := true, prepOk := true, bestZ := some (-2),
    balanceOk := true, openResult := some pos,
    closeSignal := false, closeOk := false }

/-- A monitor cycle whose `check_positions` signals close but whose
`close_positions` hits an exchange error. -/
def monitorCloseFailEnv : CycleEnv :=
  { minuteIsOne := false, prepOk := true, bestZ := none,
    balanceOk := false, openResult := none,
    closeSignal := true, closeOk := false }

/-! ## Claim C1: one open position, entry gated by state -/

/-- C1, counterexample.  Starting from the empty state, two consecutive
hourly-analysis cycles that each find a qualifying candidate and open
successfully leave TWO pair-positions open on the exchange: the hourly
branch of `main` runs entry evaluation even though `current_orders` is
already set after the first cycle, and overwrites it.  This refutes both
halves of the claim: the state machine can hold two open pair-positions,
and entry evaluation is not a no-op while a position is open. -/
theorem c1_two_positions_counterexample :
    (cycleStep ⟨none, []⟩ (hourlyEntryEnv posAB)).tracked ≠ none ∧
    cycleStep (cycleStep ⟨none, []⟩ (hourlyEntryEnv posAB))
        (hourlyEntryEnv posCD) ≠
      cycleStep ⟨none, []⟩ (hourlyEntryEnv posAB) ∧
    (cycleStep (cycleStep ⟨none, []⟩ (hourlyEntryEnv posAB))
        (hourlyEntryEnv posCD)).openPs.length = 2 := by
  refine ⟨?_, ?_, ?_⟩ <;> decide

/-- C1, amended.  In every non-hourly cycle no new position is opened
(the monitor branch runs instead, so entry evaluation is a no-op there);
but in an hourly-analysis cycle whose entry conditions hold (data
prepared, best z-score below `ZSCORE_THRESHOLD`, balance check passed,
orders placed) the entry executes regardless of the tracked state,
pushing a new pair-position on top of whatever is already open and
overwriting the tracking variable. -/
theorem c1_entry_gating (s : TradeState) (e : CycleEnv) :
    (e.minuteIsOne = false →
      (cycleStep s e).openPs.length ≤ s.openPs.length) ∧
    (∀ p bz, e.minuteIsOne = true → e.prepOk = true →
      e.bestZ = some bz → bz < ZSCORE_THRESHOLD → e.balanceOk = true →
      e.openResult = some p →
      cycleStep s e = ⟨some p, p :: s.openPs⟩) := by
  constructor
  · intro hmin
    unfold cycleStep
    rw [hmin]
    simp only [Bool.false_eq_true, if_false]
    match htr : s.tracked with
    | none => simp
    | some pos =>
      by_cases hc : e.closeSignal = true
      · simp only [hc, if_true]
        by_cases hok : e.closeOk = true
        · simpa [hok] using List.length_erase_le pos s.openPs
        · simp [hok]
      · simp [hc]
  · intro p bz hmin hprep hbz hlt hbal hopen
    unfold cycleStep
    rw [hmin, hprep, hbz, hopen]
    simp [hlt, hbal]

/-- C1 witness: the amended theorem applied at a concrete state that
already tracks an open position. -/
theorem c1_entry_gating_witness :
    (⟨some posAB, [posAB]⟩ : TradeState).tracked ≠ none ∧
    cycleStep ⟨some posAB, [posAB]⟩ (hourlyEntryEnv posCD) =
      ⟨some posCD, [posCD, posAB]⟩ := by
  refine ⟨by decide, ?_⟩
  exact (c1_entry_gating ⟨some posAB, [posAB]⟩ (hourlyEntryEnv posCD)).2
    posCD (-2) rfl rfl rfl (by norm_num [ZSCORE_THRESHOLD]) rfl rfl

/-! ## Claim C2: closing mechanics and error handling -/

/-- C2, counterexample.  The close orders built by `close_positions` are
not reduce-only (no `reduceOnly` parameter is passed to `create_order`),
and when the close hits an exchange error (`closeOk = false`) the monitor
branch still clears `current_orders`, dropping the still-open position
instead of retrying on the next cycle. -/
theorem c2_close_counterexample :
    ((close_positions [oA, oB]).map CloseIntent.reduceOnly =
      [false, false]) ∧
    (cycleStep ⟨some posAB, [posAB]⟩ monitorCloseFailEnv).tracked = none ∧
    (cycleStep ⟨some posAB, [posAB]⟩ monitorCloseFailEnv).openPs =
      [posAB] := by
  refine ⟨?_, ?_, ?_⟩ <;> decide

/-- C2, amended.  Closing an open pair-position issues one plain (not
reduce-only) opposite-side market order per leg, sized at that order's
filled quantity (not the originally requested quantity); and on an
execution error during closing the error is caught and logged inside
`close_positions` while `main` clears the tracking variable anyway, so
the position is dropped from tracking (while remaining open on the
exchange), not retried. -/
theorem c2_close_mechanics :
    (∀ (orders : List Order) (o : Order), o ∈ orders →
      ∃ ci ∈ close_positions orders,
        ci.symbol = o.symbol ∧ ci.side = flipSide o.side ∧
        ci.amount = o.filled ∧ ci.reduceOnly = false) ∧
    (∀ (s : TradeState) (e : CycleEnv) (pos : PairPos),
      s.tracked = some pos → e.minuteIsOne = false →
      e.closeSignal = true → e.closeOk = false →
      (cycleStep s e).tracked = none ∧ (cycleStep s e).openPs = s.openPs) := by
  constructor
  · intro orders o ho
    exact ⟨closeOrder o, List.mem_map_of_mem closeOrder ho, rfl, rfl, rfl, rfl⟩
  · intro s e pos htr hmin hsig hok
    unfold cycleStep
    rw [hmin, htr]
    simp [hsig, hok]

/-- C2 witness: the amended theorem at a partially filled order
(requested 5, filled 3) and at a concrete failing close cycle. -/
theorem c2_close_mechanics_witness :
    (∃ ci ∈ close_positions [oA, oB],
      ci.symbol = oA.symbol ∧ ci.side = flipSide oA.side ∧
      ci.amount = oA.filled ∧ ci.reduceOnly = false) ∧
    ((cycleStep ⟨some posAB, [posAB]⟩ monitorCloseFailEnv).tracked = none ∧
      (cycleStep ⟨some posAB, [posAB]⟩ monitorCloseFailEnv).openPs =
        [posAB]) :=
  ⟨c2_close_mechanics.1 [oA, oB] oA (by decide),
    c2_close_mechanics.2 ⟨some posAB, [posAB]⟩ monitorCloseFailEnv posAB
      rfl rfl rfl rfl⟩

/-! ## Claim C3: stop-loss dominates take-profit -/

/-- C3, confirmed.  Whenever the stop-loss condition holds
(`total_pnl ≤ -STOP_LOSS_PERCENT * POSITION_SIZE * 2`), `check_positions`
returns from the stop-loss branch: in particular when the take-profit
condition holds in the same cycle the outcome is still `stopLoss`, and
the result does not depend on the current z-score at all (the z-score is
fetched only after the stop-loss check, so take-profit is never
evaluated). -/
theorem c3_stop_loss_priority (totalPnl meanZ : ℚ)
    (hsl : totalPnl ≤ -STOP_LOSS_PERCENT * POSITION_SIZE * 2) :
    (∀ z : ℚ, |z - meanZ| ≤ TP_BUFFER →
      check_positions totalPnl (some z) meanZ = .stopLoss) ∧
    (∀ currentZ : Option ℚ,
      check_positions totalPnl currentZ meanZ = .stopLoss) := by
  refine ⟨fun z _ => ?_, fun currentZ => ?_⟩ <;>
    · unfold check_positions
      rw [if_pos hsl]

/-- C3 witness: PnL of -3.5 USDT (3.5% of 2×POSITION_SIZE) with the
current z-score exactly at the mean. -/
theorem c3_stop_loss_priority_witness :
    ((-7 / 2 : ℚ) ≤ -STOP_LOSS_PERCENT * POSITION_SIZE * 2) ∧
    (|(0 : ℚ) - 0| ≤ TP_BUFFER) ∧
    check_positions (-7 / 2) (some 0) 0 = .stopLoss :=
  ⟨by norm_num [STOP_LOSS_PERCENT, POSITION_SIZE],
    by norm_num [TP_BUFFER],
    (c3_stop_loss_priority (-7 / 2) 0
      (by norm_num [STOP_LOSS_PERCENT, POSITION_SIZE])).1 0
      (by norm_num [TP_BUFFER])⟩

/-! ## Rolling z-score (`func_cointegration_daily.py`, lines 11-47)

Pandas `NaN` results are modelled as `none`; a defined float value is a
`some`.  `df.rolling(window=w)` yields `NaN` until `w` samples are
available, and `(x - mean) / std` is `NaN` (0/0) when the rolling
standard deviation is zero, since then `x = mean`. -/

/-- `z_score_window = 20` (line 12). -/
def z_score_window : ℕ := 20

/-- Arithmetic mean `sum/len` of a list of floats. -/
def listMean (xs : List ℚ) : ℚ := xs.sum / xs.length

/-- Unbiased sample variance; pandas `rolling(...).std()` uses `ddof=1`,
so the squared deviations are divided by `len - 1`. -/
def sampleVar (xs : List ℚ) : ℚ :=
  (xs.map fun x => (x - listMean xs) ^ 2).sum / ((xs.length : ℚ) - 1)

/-- Population variance (`ddof=0`), as computed by hand in
`func_exec_mean_zscore.get_current_zscore` (line 132: division by
`len(spread)`). -/
def popVar (xs : List ℚ) : ℚ :=
  (xs.map fun x => (x - listMean xs) ^ 2).sum / xs.length

/-- The trailing window of `w` samples ending at index `i` of `xs`:
`some` exactly when `i` is in range and at least `w` samples have been
seen, which is when pandas `rolling(window=w)` stops producing `NaN`. -/
def windowAt (w : ℕ) (xs : List ℚ) (i : ℕ) : Option (List ℚ) :=
  if w ≤ i + 1 ∧ i < xs.length then
    some ((xs.take (i + 1)).drop (i + 1 - w))
  else none

/-- `calculate_zscore` (lines 40-47): rolling mean and rolling std over
`z_score_window` samples, `ZSCORE = (x - mean) / std` where `x` is the
spread itself (rolling window of 1).  Entry `i` is `NaN` (`none`) while
fewer than `z_score_window` samples exist, and at zero rolling variance
(there `x = mean`, so the quotient is `0/0 = NaN`). -/
noncomputable def calculate_zscore (spread : List ℚ) : List (Option ℝ) :=
  (List.range spread.length).map fun i =>
    match windowAt z_score_window spread i with
    | none => none
    | some win =>
      if sampleVar win = 0 then none
      else some ((((spread.getD i 0 : ℚ) : ℝ) - ((listMean win : ℚ) : ℝ)) /
        Real.sqrt ((sampleVar win : ℚ) : ℝ))

/-- `get_current_zscore` (`func_exec_mean_zscore.py`, lines 101-143):
fetches the last `window` closes of both legs (`none` models the
`ValueError` raised and caught when fewer are available), computes the
spread, its full-window mean and population std by hand, returns `0.0`
when the std is zero (lines 134-135), and otherwise the z-score of the
most recent spread sample. -/
noncomputable def get_current_zscore (closes1 closes2 : List ℚ)
    (hedge_ratio : ℚ) (window : ℕ := 20) : Option ℝ :=
  if closes1.length < window ∨ closes2.length < window then none
  else
    let spread := (closes1.zip closes2).map fun p => p.1 - hedge_ratio * p.2
    if popVar spread = 0 then some 0
    else some ((((spread.getLast?.getD 0 : ℚ) : ℝ) -
      ((listMean spread : ℚ) : ℝ)) / Real.sqrt ((popVar spread : ℚ) : ℝ))

/-- The sample variance of a constant window is zero. -/
theorem sampleVar_replicate (m : ℕ) (c : ℚ) :
    sampleVar (List.replicate m c) = 0 := by
  rcases Nat.eq_zero_or_pos m with hm | hm
  · subst hm
    simp [sampleVar]
  · have hmean : listMean (List.replicate m c) = c := by
      rw [listMean, List.sum_replicate, List.length_replicate, nsmul_eq_mul,
        mul_comm, mul_div_assoc, div_self (by exact_mod_cast hm.ne'), mul_one]
    rw [sampleVar, List.map_replicate, hmean]
    simp

/-- Entry `i` of `calculate_zscore spread`, read through `getD`. -/
theorem calculate_zscore_getD (spread : List ℚ) (i : ℕ)
    (hi : i < spread.length) :
    (calculate_zscore spread).getD i none =
      match windowAt z_score_window spread i with
      | none => none
      | some win =>
        if sampleVar win = 0 then none
        else some ((((spread.getD i 0 : ℚ) : ℝ) - ((listMean win : ℚ) : ℝ)) /
          Real.sqrt ((sampleVar win : ℚ) : ℝ)) := by
  rw [calculate_zscore, List.getD_eq_getElem?_getD, List.getElem?_map,
    List.getElem?_range hi]
  rfl

/-! ## Claim C4: undefined z-scores on short or constant windows -/

/-- C4, counterexample.  For a constant spread over a full window of 20
samples (both close series constant, hedge ratio 1), the execution
module's `get_current_zscore` returns `0.0`, a defined zero value, where
the claim requires the z-score to be undefined (and in particular not
zero) whenever the rolling standard deviation is zero. -/
theorem c4_zero_std_counterexample :
    popVar (((List.replicate 20 (1 : ℚ)).zip (List.replicate 20 (1 : ℚ))).map
      fun p => p.1 - 1 * p.2) = 0 ∧
    get_current_zscore (List.replicate 20 1) (List.replicate 20 1) 1 =
      some 0 := by
  constructor
  · decide
  · rw [get_current_zscore, if_neg (by decide)]
    simp only []
    rw [if_pos (by decide)]

/-- C4, amended.  The rolling z-score series `calculate_zscore` is
undefined (`NaN`, not zero, not infinite, no exception) at every index
below `z_score_window - 1` and at every index whose trailing window has
zero variance, in particular everywhere on a constant spread.  The
single-value helper `get_current_zscore` of the execution module is
likewise undefined (`None`) when fewer than `window` closes are
available, but at zero spread variance over the window it returns the
defined value `0.0` instead of an undefined one. -/
theorem c4_zscore_undefined :
    (∀ (spread : List ℚ) (i : ℕ), i < z_score_window - 1 →
      (calculate_zscore spread).getD i none = none) ∧
    (∀ (spread : List ℚ) (i : ℕ) (win : List ℚ),
      windowAt z_score_window spread i = some win → sampleVar win = 0 →
      (calculate_zscore spread).getD i none = none) ∧
    (∀ (n : ℕ) (c : ℚ) (i : ℕ),
      (calculate_zscore (List.replicate n c)).getD i none = none) ∧
    (∀ (closes1 closes2 : List ℚ) (h : ℚ) (w : ℕ),
      closes1.length < w ∨ closes2.length < w →
      get_current_zscore closes1 closes2 h w = none) ∧
    (∀ (closes1 closes2 : List ℚ) (h : ℚ) (w : ℕ),
      ¬(closes1.length < w ∨ closes2.length < w) →
      popVar ((closes1.zip closes2).map fun p => p.1 - h * p.2) = 0 →
      get_current_zscore closes1 closes2 h w = some 0) := by
  have hwin : ∀ (spread : List ℚ) (i : ℕ) (win : List ℚ),
      windowAt z_score_window spread i = some win → sampleVar win = 0 →
      (calculate_zscore spread).getD i none = none := by
    intro spread i win hw hv
    have hi : i < spread.length := by
      by_contra hcon
      rw [windowAt, if_neg fun hc => hcon hc.2] at hw
      exact Option.noConfusion hw
    rw [calculate_zscore_getD spread i hi, hw]
    simp [hv]
  refine ⟨?_, hwin, ?_, ?_, ?_⟩
  · intro spread i hsmall
    rcases Nat.lt_or_ge i spread.length with hi | hi
    · rw [calculate_zscore_getD spread i hi, windowAt,
        if_neg fun hc => absurd hc.1 (by omega)]
    · exact List.getD_eq_default _ _ (by simpa [calculate_zscore] using hi)
  · intro n c i
    rcases Nat.lt_or_ge i (List.replicate n c).length with hi | hi
    · cases hw : windowAt z_score_window (List.replicate n c) i with
      | none => rw [calculate_zscore_getD _ i hi, hw]
      | some win =>
        refine hwin _ i win hw ?_
        have : win = List.replicate (min (i + 1) n - (i + 1 - z_score_window)) c := by
          have := hw
          rw [windowAt] at this
          split at this
          · rw [List.take_replicate, List.drop_replicate] at this
            exact (Option.some_inj.mp this).symm
          · exact Option.noConfusion this
        rw [this]
        exact sampleVar_replicate _ c
    · exact List.getD_eq_default _ _ (by simpa [calculate_zscore] using hi)
  · intro closes1 closes2 h w hshort
    rw [get_current_zscore, if_pos hshort]
  · intro closes1 closes2 h w hlong hv
    rw [get_current_zscore, if_neg hlong]
    simp only []
    rw [if_pos hv]

/-- C4 witness: the amended theorem applied at a 25-sample constant
spread (indices below 19 and the zero-variance window at index 19 are
both undefined) and at a 20-sample constant close pair for the execution
helper. -/
theorem c4_zscore_undefined_witness :
    (5 < z_score_window - 1 ∧
      (calculate_zscore (List.replicate 25 (7 : ℚ))).getD 5 none = none) ∧
    (windowAt z_score_window (List.replicate 25 (7 : ℚ)) 19 =
        some (List.replicate 20 7) ∧
      sampleVar (List.replicate 20 (7 : ℚ)) = 0 ∧
      (calculate_zscore (List.replicate 25 (7 : ℚ))).getD 19 none = none) ∧
    get_current_zscore (List.replicate 20 (1 : ℚ))
      (List.replicate 20 (1 : ℚ)) 1 = some 0 :=
  ⟨⟨by decide, c4_zscore_undefined.1 (List.replicate 25 7) 5 (by decide)⟩,
    ⟨by decide, by decide,
      c4_zscore_undefined.2.1 (List.replicate 25 7) 19 (List.replicate 20 7)
        (by decide) (by decide)⟩,
    c4_zscore_undefined.2.2.2.2 (List.replicate 20 1) (List.replicate 20 1) 1
      20 (by decide) (by decide)⟩

/-! ## Half-life of mean reversion (`func_mean_halflife.py`, lines 5-30) -/

/-- OLS slope of `y` on `x` with intercept over data points `(x, y)`:
`β = (n·Σxy - Σx·Σy) / (n·Σx² - (Σx)²)`, the closed form of the
`statsmodels` fit `sm.OLS(delta, sm.add_constant(lag)).params[1]`.
On degenerate data the denominator is zero and `ℚ` division yields 0. -/
def olsSlopeWithIntercept (pts : List (ℚ × ℚ)) : ℚ :=
  ((pts.length : ℚ) * (pts.map fun p => p.1 * p.2).sum -
      (pts.map Prod.fst).sum * (pts.map Prod.snd).sum) /
    ((pts.length : ℚ) * (pts.map fun p => p.1 ^ 2).sum -
      (pts.map Prod.fst).sum ^ 2)

/-- The regression rows of `calculate_half_life` (lines 15-21):
`lag = series.shift(1)`, `delta = series - lag`, rows with missing
values dropped, leaving the pairs `(z_{t-1}, z_t - z_{t-1})` for
consecutive samples. -/
def lagDelta (series : List ℚ) : List (ℚ × ℚ) :=
  (series.zip series.tail).map fun p => (p.1, p.2 - p.1)

/-- pandas `Series.dropna()`: keep the non-null entries. -/
def dropna (col : List (Option ℚ)) : List ℚ := col.filterMap id

/-- `calculate_half_life` (lines 5-30): drop missing values (line 12),
`None` on an empty result; `NaN` (modelled `none`) when the fitted slope
`beta ≥ 0` (lines 26-28, the non-mean-reverting outcome); otherwise
`-ln 2 / beta` (line 29). -/
noncomputable def calculate_half_life (series : List (Option ℚ)) : Option ℝ :=
  if dropna series = [] then none
  else
    if 0 ≤ olsSlopeWithIntercept (lagDelta (dropna series)) then none
    else some (-Real.log 2 /
      ((olsSlopeWithIntercept (lagDelta (dropna series)) : ℚ) : ℝ))

/-! ## Claim C5: half-life defined exactly on negative slope -/

/-- C5, confirmed.  For every z-score series, if the fitted slope `β` of
`Δz_t` on `z_{t-1}` (with intercept, over the non-null samples) is `≥ 0`
the returned half-life is undefined (a `NaN`/`None` value, not an
error); if `β < 0` the returned half-life equals `-ln 2 / β`, which is
strictly positive. -/
theorem c5_half_life (series : List (Option ℚ)) :
    (0 ≤ olsSlopeWithIntercept (lagDelta (dropna series)) →
      calculate_half_life series = none) ∧
    (olsSlopeWithIntercept (lagDelta (dropna series)) < 0 →
      calculate_half_life series =
        some (-Real.log 2 /
          ((olsSlopeWithIntercept (lagDelta (dropna series)) : ℚ) : ℝ)) ∧
      0 < -Real.log 2 /
        ((olsSlopeWithIntercept (lagDelta (dropna series)) : ℚ) : ℝ)) := by
  constructor
  · intro hb
    rcases eq_or_ne (dropna series) [] with he | he
    · rw [calculate_half_life, if_pos he]
    · rw [calculate_half_life, if_neg he, if_pos hb]
  · intro hb
    have hempty : dropna series ≠ [] := by
      intro he
      rw [he] at hb
      revert hb
      decide
    refine ⟨?_, ?_⟩
    · rw [calculate_half_life, if_neg hempty, if_neg (not_le.mpr hb)]
    · apply div_pos_of_neg_of_neg
      · simpa using Real.log_pos (by norm_num)
      · exact_mod_cast hb

/-- C5 witness: the oscillating series `[0, 2, null, 0, 2, 0]` has
fitted slope `β = -2 < 0` after dropping the missing value, so its
half-life is the defined positive value `-ln 2 / (-2)`. -/
theorem c5_half_life_witness :
    olsSlopeWithIntercept (lagDelta (dropna
      [some 0, some 2, none, some 0, some 2, some 0])) < 0 ∧
    (calculate_half_life [some 0, some 2, none, some 0, some 2, some 0] =
      some (-Real.log 2 /
        ((olsSlopeWithIntercept (lagDelta (dropna
          [some 0, some 2, none, some 0, some 2, some 0])) : ℚ) : ℝ)) ∧
    0 < -Real.log 2 /
      ((olsSlopeWithIntercept (lagDelta (dropna
        [some 0, some 2, none, some 0, some 2, some 0])) : ℚ) : ℝ)) :=
  ⟨by decide,
    (c5_half_life [some 0, some 2, none, some 0, some 2, some 0]).2
      (by decide)⟩

/-! ## Mean z-score production (`func_mean_halflife.py`, lines 32-53) -/

/-- Python `round(x, 2)`: round to 2 decimal places.  (Python resolves
exact midpoints half-to-even; Mathlib's `round` resolves them half-up.
The two agree everywhere except exact midpoints, which no claim in this
development touches.) -/
def round2 (q : ℚ) : ℚ := (round (q * 100) : ℤ) / 100

/-- `round(x, 2)` on a real value (used for the half-life, whose value
involves `ln 2`). -/
noncomputable def round2R (x : ℝ) : ℝ := ((round (x * 100) : ℤ) : ℝ) / 100

/-- pandas `Series.mean()` accumulator: a single pass over the column
summing the non-null entries and counting them (`skipna=True`). -/
def meanFold (col : List (Option ℚ)) : ℕ × ℚ :=
  col.foldl
    (fun acc x =>
      match x with
      | none => acc
      | some v => (acc.1 + 1, acc.2 + v))
    (0, 0)

/-- pandas `Series.mean()`: sum of the non-null entries over their
count, `NaN` (`none`) for an all-null column. -/
def pandasMean (col : List (Option ℚ)) : Option ℚ :=
  if (meanFold col).1 = 0 then none
  else some ((meanFold col).2 / ((meanFold col).1 : ℚ))

/-- The `<pair>_mean_zscore` value produced by `compute_mean_and_halflife`
for one `_zscore` column (lines 45-49): `df[col].mean()` rounded to two
decimals, `None` when the mean is null.  This is the value persisted to
`df_mean_halflife.csv` at the end of each scan cycle (the trading loop's
`prepare_data_files` runs `compute_mean_and_halflife` after
`process_pairs`, overwriting the rolling-mean file the latter wrote). -/
def mean_zscore_produced (col : List (Option ℚ)) : Option ℚ :=
  (pandasMean col).map round2

/-- The `<pair>_halflife` value produced by `compute_mean_and_halflife`
(lines 47-50): the half-life of the column, rounded to two decimals,
`None` when undefined. -/
noncomputable def halflife_produced (col : List (Option ℚ)) : Option ℝ :=
  (calculate_half_life col).map round2R

/-- The mean accumulator computes the length and sum of the non-null
entries. -/
theorem meanFold_eq (col : List (Option ℚ)) :
    meanFold col = ((dropna col).length, (dropna col).sum) := by
  have key : ∀ (l : List (Option ℚ)) (a : ℕ) (b : ℚ),
      l.foldl
        (fun acc x =>
          match x with
          | none => acc
          | some v => (acc.1 + 1, acc.2 + v))
        (a, b) = (a + (dropna l).length, b + (dropna l).sum) := by
    intro l
    induction l with
    | nil => intro a b; simp [dropna]
    | cons x xs ih =>
      intro a b
      cases x with
      | none => simpa [dropna] using ih a b
      | some v =>
        rw [List.foldl_cons, ih (a + 1) (b + v)]
        simp [dropna, List.filterMap_cons]
        constructor
        · omega
        · ring
  simpa using key col 0 0

/-! ## Claim C6: the produced mean z-score -/

/-- C6, counterexample.  For the z-score column `[null, 0.006]` the
produced mean z-score is `0.01` (the rounded value), which differs from
the simple arithmetic mean `0.006` of the column's available history, so
the produced value does not equal the arithmetic mean exactly. -/
theorem c6_mean_rounded_counterexample :
    mean_zscore_produced [none, some (6 / 1000)] = some (1 / 100) ∧
    pandasMean [none, some (6 / 1000)] = some (6 / 1000) ∧
    (1 / 100 : ℚ) ≠ 6 / 1000 := by
  refine ⟨?_, ?_, ?_⟩ <;> decide

/-- C6, amended.  The mean_zscore value produced each scan cycle equals
the simple arithmetic mean of the pair's rolling z-score series over its
full available (non-null) history at computation time, rounded to two
decimal places — it is a fresh full-history mean, not a rolling mean at
the latest point and not an incrementally updated value; it is `None`
when no z-score is available. -/
theorem c6_mean_zscore (col : List (Option ℚ)) :
    (dropna col ≠ [] →
      mean_zscore_produced col =
        some (round2 ((dropna col).sum / ((dropna col).length : ℚ)))) ∧
    (dropna col = [] → mean_zscore_produced col = none) := by
  constructor
  · intro hne
    rw [mean_zscore_produced, pandasMean, meanFold_eq]
    rw [if_neg (by simpa using fun h => hne (List.eq_nil_of_length_eq_zero h))]
    rfl
  · intro he
    rw [mean_zscore_produced, pandasMean, meanFold_eq]
    rw [if_pos (by simp [he])]
    rfl

/-- C6 witness: the amended theorem at the column `[null, 1, 2]`, whose
produced mean is `round2(3/2) = 1.5`. -/
theorem c6_mean_zscore_witness :
    dropna [none, some 1, some 2] ≠ [] ∧
    mean_zscore_produced [none, some 1, some 2] =
      some (round2 ((dropna [none, some 1, some 2]).sum /
        ((dropna [none, some 1, some 2]).length : ℚ))) :=
  ⟨by decide, (c6_mean_zscore [none, some 1, some 2]).1 (by decide)⟩

/-! ## Pair scanner (`func_cointegration_daily.py`, lines 49-132) -/

/-- `calculate_spread` (lines 50-52): `series_1 - series_2 * hedge_ratio`. -/
def calculate_spread (series1 series2 : List ℚ) (hedge_ratio : ℚ) : List ℚ :=
  (series1.zip series2).map fun p => p.1 - p.2 * hedge_ratio

/-- OLS with no intercept (`sm.OLS(series_1, series_2).fit().params[0]`,
lines 68-70): `β = Σ y·x / Σ x²`. -/
def olsNoIntercept (y x : List ℚ) : ℚ :=
  ((y.zip x).map fun p => p.1 * p.2).sum / (x.map fun v => v ^ 2).sum

/-- `np.sign` on a float. -/
def qsign (q : ℚ) : ℤ := if q < 0 then -1 else if q = 0 then 0 else 1

/-- `zero_crossings` (line 74): the number of consecutive positions of
the spread where `np.sign` changes (`np.where(np.diff(np.sign(spread)))`). -/
def zeroCrossings (spread : List ℚ) : ℕ :=
  ((spread.zip spread.tail).filter fun p => qsign p.1 ≠ qsign p.2).length

/-- The library cointegration test `coint(series_1, series_2)` of
statsmodels (line 63), an external numeric primitive: it returns the
test statistic, the p-value and the 95% critical value
(`coint_res[0]`, `coint_res[1]`, `coint_res[2][1]`), or raises. -/
abbrev CointBackend := List ℚ → List ℚ → Except String (ℚ × ℚ × ℚ)

/-- The tuple returned by `calculate_cointegration` (lines 79-80):
`coint_flag` plus the stored (rounded) statistics. -/
structure CointResult where
  flag : Bool
  p_value : ℚ
  t_value : ℚ
  c_value : ℚ
  hedge_ratio : ℚ
  zero_crossings : ℕ
deriving DecidableEq

/-- `calculate_cointegration` (lines 55-80): truncate both series to the
common length, run the cointegration test, estimate the hedge ratio by
no-intercept OLS, count the spread's zero crossings, set `coint_flag`
iff `p_value < 0.5 and coint_t < critical_value` (on the raw, unrounded
statistics), and return the statistics rounded to 2 decimal places. -/
def calculate_cointegration (backend : CointBackend)
    (series1 series2 : List ℚ) : Except String CointResult :=
  let n := min series1.length series2.length
  let s1 := series1.take n
  let s2 := series2.take n
  match backend s1 s2 with
  | .error e => .error e
  | .ok (t, p, c) =>
    .ok { flag := decide (p < 1 / 2 ∧ t < c)
          p_value := round2 p
          t_value := round2 t
          c_value := round2 c
          hedge_ratio := round2 (olsNoIntercept s1 s2)
          zero_crossings :=
            zeroCrossings (calculate_spread s1 s2 (olsNoIntercept s1 s2)) }

/-- One column of the wide close-price table: the symbol name and its
per-timestamp closes, `none` for a missing row. -/
abbrev PriceColumn := String × List (Option ℚ)

/-- `close_df[[sym1, sym2]].dropna()` (line 98): the rows where both
columns have data. -/
def alignPair (c1 c2 : List (Option ℚ)) : List (ℚ × ℚ) :=
  (c1.zip c2).filterMap fun p =>
    match p with
    | (some a, some b) => some (a, b)
    | _ => none

/-- The index pairs `(i, j)` with `i < j` of the nested loops
(lines 92-93), in their enumeration order. -/
def indexPairs {α : Type} : List α → List (α × α)
  | [] => []
  | x :: xs => (xs.map fun y => (x, y)) ++ indexPairs xs

/-- The dedup key of line 110, Python `"".join(sorted([sym1, sym2]))`:
the two names concatenated in lexicographic order, with no separator. -/
def pairKey (s1 s2 : String) : String :=
  if s1.data < s2.data ∨ s1.data = s2.data then s1 ++ s2 else s2 ++ s1

/-- One row of `coint_pair_list` (lines 113-121). -/
structure Entry where
  sym_1 : String
  sym_2 : String
  res : CointResult
deriving DecidableEq

/-- The loop body of `get_cointegrated_pairs` (lines 92-125) over the
remaining index pairs, carrying `included_list`: skip a pair on empty
alignment (lines 99-100), skip it when the per-pair computation raises
(lines 122-123, the `except` clause), record it when `coint_flag == 1`
and its dedup key is new (lines 108-121). -/
def scanAux (backend : CointBackend) :
    List (PriceColumn × PriceColumn) → List String → List Entry
  | [], _ => []
  | (c1, c2) :: rest, included =>
    if alignPair c1.2 c2.2 = [] then scanAux backend rest included
    else
      match calculate_cointegration backend
        ((alignPair c1.2 c2.2).map Prod.fst)
        ((alignPair c1.2 c2.2).map Prod.snd) with
      | .error _ => scanAux backend rest included
      | .ok r =>
        if r.flag then
          if pairKey c1.1 c2.1 ∈ included then scanAux backend rest included
          else
            ⟨c1.1, c2.1, r⟩ ::
              scanAux backend rest (pairKey c1.1 c2.1 :: included)
        else scanAux backend rest included

/-- `get_cointegrated_pairs` (lines 83-132): scan every unordered column
pair and sort the recorded rows by `zero_crossings` descending
(line 130). -/
def get_cointegrated_pairs (backend : CointBackend)
    (close_df : List PriceColumn) : List Entry :=
  List.insertionSort (fun a b => b.res.zero_crossings ≤ a.res.zero_crossings)
    (scanAux backend (indexPairs close_df) [])

/-- The dedup key does not depend on the order of the two names
(Python sorts them before joining). -/
theorem pairKey_comm (a b : String) : pairKey a b = pairKey b a := by
  rcases lt_trichotomy a.data b.data with h | h | h
  · rw [pairKey, if_pos (Or.inl h), pairKey,
      if_neg ?_]
    rintro (hc | hc)
    · exact absurd h (lt_asymm hc)
    · rw [hc] at h
      exact absurd h (lt_irrefl _)
  · have hab : a = b := by
      cases a
      cases b
      exact congrArg String.mk (by simpa using h)
    rw [hab]
  · rw [pairKey, if_neg ?_, pairKey, if_pos (Or.inl h)]
    rintro (hc | hc)
    · exact absurd h (lt_asymm hc)
    · rw [hc] at h
      exact absurd h (lt_irrefl _)

/-- Every pair enumerated by the nested loops respects a pairwise
relation holding on the column list. -/
theorem indexPairs_pairwise {α : Type} {R : α → α → Prop} :
    ∀ {l : List α}, l.Pairwise R → ∀ p ∈ indexPairs l, R p.1 p.2 := by
  intro l
  induction l with
  | nil => intro _ p hp; simp [indexPairs] at hp
  | cons x xs ih =>
    intro hpw p hp
    rw [indexPairs, List.mem_append] at hp
    rcases hp with hp | hp
    · rcases List.mem_map.mp hp with ⟨y, hy, rfl⟩
      exact (List.pairwise_cons.mp hpw).1 y hy
    · exact ih (List.pairwise_cons.mp hpw).2 p hp

/-- Every row recorded by the scan loop comes from one of the enumerated
column pairs: its symbols are that pair's column names in enumeration
order, the alignment was nonempty, the per-pair computation succeeded
with exactly the stored statistics, and the cointegration flag was set. -/
theorem scanAux_mem {backend : CointBackend} :
    ∀ {pairs : List (PriceColumn × PriceColumn)} {included : List String}
      {e : Entry}, e ∈ scanAux backend pairs included →
      ∃ pr ∈ pairs, e.sym_1 = pr.1.1 ∧ e.sym_2 = pr.2.1 ∧
        alignPair pr.1.2 pr.2.2 ≠ [] ∧
        calculate_cointegration backend
          ((alignPair pr.1.2 pr.2.2).map Prod.fst)
          ((alignPair pr.1.2 pr.2.2).map Prod.snd) = .ok e.res ∧
        e.res.flag = true := by
  intro pairs
  induction pairs with
  | nil => intro included e he; simp [scanAux] at he
  | cons hd rest ih =>
    intro included e he
    obtain ⟨c1, c2⟩ := hd
    rw [scanAux] at he
    by_cases halign : alignPair c1.2 c2.2 = []
    · rw [if_pos halign] at he
      obtain ⟨pr, hpr, hrest⟩ := ih he
      exact ⟨pr, List.mem_cons_of_mem _ hpr, hrest⟩
    · rw [if_neg halign] at he
      cases hcomp : calculate_cointegration backend
          ((alignPair c1.2 c2.2).map Prod.fst)
          ((alignPair c1.2 c2.2).map Prod.snd) with
      | error err =>
        simp only [hcomp] at he
        obtain ⟨pr, hpr, hrest⟩ := ih he
        exact ⟨pr, List.mem_cons_of_mem _ hpr, hrest⟩
      | ok r =>
        simp only [hcomp] at he
        by_cases hflag : r.flag = true
        · rw [if_pos hflag] at he
          by_cases hkey : pairKey c1.1 c2.1 ∈ included
          · rw [if_pos hkey] at he
            obtain ⟨pr, hpr, hrest⟩ := ih he
            exact ⟨pr, List.mem_cons_of_mem _ hpr, hrest⟩
          · rw [if_neg hkey] at he
            rcases List.mem_cons.mp he with rfl | he'
            · exact ⟨(c1, c2), List.mem_cons_self _ _,
                rfl, rfl, halign, hcomp, hflag⟩
            · obtain ⟨pr, hpr, hrest⟩ := ih he'
              exact ⟨pr, List.mem_cons_of_mem _ hpr, hrest⟩
        · rw [if_neg hflag] at he
          obtain ⟨pr, hpr, hrest⟩ := ih he
          exact ⟨pr, List.mem_cons_of_mem _ hpr, hrest⟩

/-- The `included_list` discipline: no recorded row's dedup key is in
`included`, and the recorded rows have pairwise distinct dedup keys. -/
theorem scanAux_keys (backend : CointBackend) :
    ∀ (pairs : List (PriceColumn × PriceColumn)) (included : List String),
      (∀ e ∈ scanAux backend pairs included,
        pairKey e.sym_1 e.sym_2 ∉ included) ∧
      (scanAux backend pairs included).Pairwise
        (fun e1 e2 =>
          pairKey e1.sym_1 e1.sym_2 ≠ pairKey e2.sym_1 e2.sym_2) := by
  intro pairs
  induction pairs with
  | nil => intro included; simp [scanAux]
  | cons hd rest ih =>
    intro included
    obtain ⟨c1, c2⟩ := hd
    rw [scanAux]
    by_cases halign : alignPair c1.2 c2.2 = []
    · rw [if_pos halign]
      exact ih included
    · rw [if_neg halign]
      cases hcomp : calculate_cointegration backend
          ((alignPair c1.2 c2.2).map Prod.fst)
          ((alignPair c1.2 c2.2).map Prod.snd) with
      | error err => exact ih included
      | ok r =>
        dsimp only
        by_cases hflag : r.flag = true
        · rw [if_pos hflag]
          by_cases hkey : pairKey c1.1 c2.1 ∈ included
          · rw [if_pos hkey]
            exact ih included
          · rw [if_neg hkey]
            obtain ⟨ihmem, ihpw⟩ := ih (pairKey c1.1 c2.1 :: included)
            refine ⟨?_, ?_⟩
            · intro e he
              rcases List.mem_cons.mp he with rfl | he'
              · exact hkey
              · exact fun hc => ihmem e he' (List.mem_cons_of_mem _ hc)
            · refine List.pairwise_cons.mpr ⟨?_, ihpw⟩
              intro e' he' hc
              exact ihmem e' he' (hc ▸ List.mem_cons_self _ _)
        · rw [if_neg hflag]
          exact ih included

/-! ## Claim C7: canonical ordering and deduplication -/

/-- A cointegration backend that reports every pair as strongly
cointegrated (`t = -1 < c = 0`, `p = 0 < 0.5`), used to drive the
scanner on concrete tables. -/
def backend0 : CointBackend := fun _ _ => .ok (-1, 0, 0)

/-- Two price columns whose names are NOT in lexicographic order. -/
def tableBA : List PriceColumn :=
  [("B", [some 1, some 2, some 5]), ("A", [some 1, some 3, some 4])]

/-- C7, counterexample.  On a close-price table whose columns are not
lexicographically sorted, the scanner stores the pair in column order:
the candidate list contains the row `("B", "A")` with its first symbol
lexicographically GREATER than the second, refuting the canonical-order
half of the claim. -/
theorem c7_order_counterexample :
    ((get_cointegrated_pairs backend0 tableBA).map fun e =>
      (e.sym_1, e.sym_2)) = [("B", "A")] ∧
    ¬("B" : String).data < ("A" : String).data := by
  constructor
  · decide
  · decide

/-- C7, amended.  In every candidate list produced by the pair scanner,
each unordered pair of symbols appears at most once; the two symbols of
every stored pair appear in the enumeration order of the input table's
columns (so `symbolA < symbolB` lexicographically holds whenever the
input columns are lexicographically sorted, as the pivoted wide table
of the data fetcher is, but not for arbitrary column order). -/
theorem c7_dedup_and_order (backend : CointBackend)
    (close_df : List PriceColumn) :
    (get_cointegrated_pairs backend close_df).Pairwise
      (fun e1 e2 => ¬((e1.sym_1 = e2.sym_1 ∧ e1.sym_2 = e2.sym_2) ∨
        (e1.sym_1 = e2.sym_2 ∧ e1.sym_2 = e2.sym_1))) ∧
    (close_df.Pairwise (fun a b => a.1.data < b.1.data) →
      ∀ e ∈ get_cointegrated_pairs backend close_df,
        e.sym_1.data < e.sym_2.data) := by
  constructor
  · have hkeys := (scanAux_keys backend (indexPairs close_df) []).2
    have hperm := List.perm_insertionSort
      (fun a b : Entry => b.res.zero_crossings ≤ a.res.zero_crossings)
      (scanAux backend (indexPairs close_df) [])
    have hpw := (List.Perm.pairwise_iff
      (fun {x y} h => Ne.symm h) hperm).mpr hkeys
    have himp : ∀ {e1 e2 : Entry},
        pairKey e1.sym_1 e1.sym_2 ≠ pairKey e2.sym_1 e2.sym_2 →
        ¬((e1.sym_1 = e2.sym_1 ∧ e1.sym_2 = e2.sym_2) ∨
          (e1.sym_1 = e2.sym_2 ∧ e1.sym_2 = e2.sym_1)) := by
      intro e1 e2 hne hsame
      rcases hsame with ⟨h1, h2⟩ | ⟨h1, h2⟩
      · exact hne (by rw [h1, h2])
      · exact hne (by rw [h1, h2, pairKey_comm])
    exact hpw.imp himp
  · intro hsorted e he
    have he' : e ∈ scanAux backend (indexPairs close_df) [] :=
      (List.perm_insertionSort _ _).mem_iff.mp he
    obtain ⟨pr, hpr, h1, h2, -, -, -⟩ := scanAux_mem he'
    rw [h1, h2]
    exact indexPairs_pairwise hsorted pr hpr

/-- C7 witness: the amended theorem at a lexicographically sorted
two-column table, where the single candidate is stored as
`("A", "B")` with `"A" < "B"`. -/
theorem c7_dedup_and_order_witness :
    ([("A", [some 1, some 3, some 4]),
      ("B", [some 1, some 2, some 5])] : List PriceColumn).Pairwise
      (fun a b => a.1.data < b.1.data) ∧
    ∀ e ∈ get_cointegrated_pairs backend0
      [("A", [some 1, some 3, some 4]), ("B", [some 1, some 2, some 5])],
      e.sym_1.data < e.sym_2.data :=
  ⟨by decide,
    (c7_dedup_and_order backend0
      [("A", [some 1, some 3, some 4]),
        ("B", [some 1, some 2, some 5])]).2 (by decide)⟩

/-- `calculate_cointegration`, unfolded (lines 55-80): the common-length
truncation, the backend call, and the construction of the result tuple. -/
theorem calculate_cointegration_def (backend : CointBackend)
    (s1 s2 : List ℚ) :
    calculate_cointegration backend s1 s2 =
      match backend (s1.take (min s1.length s2.length))
          (s2.take (min s1.length s2.length)) with
      | .error e => .error e
      | .ok (t, p, c) =>
        .ok { flag := decide (p < 1 / 2 ∧ t < c)
              p_value := round2 p
              t_value := round2 t
              c_value := round2 c
              hedge_ratio := round2 (olsNoIntercept
                (s1.take (min s1.length s2.length))
                (s2.take (min s1.length s2.length)))
              zero_crossings := zeroCrossings (calculate_spread
                (s1.take (min s1.length s2.length))
                (s2.take (min s1.length s2.length))
                (olsNoIntercept (s1.take (min s1.length s2.length))
                  (s2.take (min s1.length s2.length)))) } := rfl

/-- On the two aligned series of a column pair the common-length
truncation of lines 58-60 is the identity, since both series have the
alignment's length. -/
theorem calculate_cointegration_aligned (backend : CointBackend)
    (c1 c2 : List (Option ℚ)) :
    calculate_cointegration backend ((alignPair c1 c2).map Prod.fst)
        ((alignPair c1 c2).map Prod.snd) =
      match backend ((alignPair c1 c2).map Prod.fst)
          ((alignPair c1 c2).map Prod.snd) with
      | .error e => .error e
      | .ok (t, p, c) =>
        .ok { flag := decide (p < 1 / 2 ∧ t < c)
              p_value := round2 p
              t_value := round2 t
              c_value := round2 c
              hedge_ratio := round2 (olsNoIntercept
                ((alignPair c1 c2).map Prod.fst)
                ((alignPair c1 c2).map Prod.snd))
              zero_crossings := zeroCrossings (calculate_spread
                ((alignPair c1 c2).map Prod.fst)
                ((alignPair c1 c2).map Prod.snd)
                (olsNoIntercept ((alignPair c1 c2).map Prod.fst)
                  ((alignPair c1 c2).map Prod.snd))) } := by
  have hlen : ((alignPair c1 c2).map Prod.fst).length =
      ((alignPair c1 c2).map Prod.snd).length := by
    simp
  have hmin : min ((alignPair c1 c2).map Prod.fst).length
      ((alignPair c1 c2).map Prod.snd).length =
      ((alignPair c1 c2).map Prod.fst).length := by
    rw [hlen, min_self]
  have h1 : ((alignPair c1 c2).map Prod.fst).take
      (min ((alignPair c1 c2).map Prod.fst).length
        ((alignPair c1 c2).map Prod.snd).length) =
      (alignPair c1 c2).map Prod.fst := by
    rw [hmin]
    exact List.take_length _
  have h2 : ((alignPair c1 c2).map Prod.snd).take
      (min ((alignPair c1 c2).map Prod.fst).length
        ((alignPair c1 c2).map Prod.snd).length) =
      (alignPair c1 c2).map Prod.snd := by
    rw [hmin, hlen]
    exact List.take_length _
  rw [calculate_cointegration_def, h1, h2]

/-- Completeness of the scan loop: a pair whose alignment is nonempty,
whose computation succeeds and whose flag is set is recorded, provided no
earlier dedup key collides with its own (`included` disjoint from the
remaining keys, and the remaining keys pairwise distinct). -/
theorem scanAux_complete (backend : CointBackend) :
    ∀ (pairs : List (PriceColumn × PriceColumn)) (included : List String),
      (∀ pr ∈ pairs, pairKey pr.1.1 pr.2.1 ∉ included) →
      (pairs.map fun pr => pairKey pr.1.1 pr.2.1).Nodup →
      ∀ pr ∈ pairs, alignPair pr.1.2 pr.2.2 ≠ [] →
      ∀ r, calculate_cointegration backend
          ((alignPair pr.1.2 pr.2.2).map Prod.fst)
          ((alignPair pr.1.2 pr.2.2).map Prod.snd) = .ok r →
      r.flag = true →
      (⟨pr.1.1, pr.2.1, r⟩ : Entry) ∈ scanAux backend pairs included := by
  intro pairs
  induction pairs with
  | nil => intro included _ _ pr hpr; simp at hpr
  | cons hd rest ih =>
    intro included hnotin hnodup pr hpr halign r hcomp hflag
    obtain ⟨c1, c2⟩ := hd
    rcases List.mem_cons.mp hpr with rfl | hpr'
    · rw [scanAux, if_neg halign]
      simp only [hcomp]
      rw [if_pos hflag,
        if_neg (hnotin (c1, c2) (List.mem_cons_self _ _))]
      exact List.mem_cons_self _ _
    · have hnotin' : ∀ pr' ∈ rest, pairKey pr'.1.1 pr'.2.1 ∉ included :=
        fun pr' h => hnotin pr' (List.mem_cons_of_mem _ h)
      have hnodup' : (rest.map fun pr => pairKey pr.1.1 pr.2.1).Nodup :=
        (List.nodup_cons.mp (by simpa using hnodup)).2
      rw [scanAux]
      by_cases halign₀ : alignPair c1.2 c2.2 = []
      · rw [if_pos halign₀]
        exact ih included hnotin' hnodup' pr hpr' halign r hcomp hflag
      · rw [if_neg halign₀]
        cases hcomp₀ : calculate_cointegration backend
            ((alignPair c1.2 c2.2).map Prod.fst)
            ((alignPair c1.2 c2.2).map Prod.snd) with
        | error err =>
          exact ih included hnotin' hnodup' pr hpr' halign r hcomp hflag
        | ok r₀ =>
          dsimp only
          by_cases hflag₀ : r₀.flag = true
          · rw [if_pos hflag₀,
              if_neg (hnotin (c1, c2) (List.mem_cons_self _ _))]
            refine List.mem_cons_of_mem _ ?_
            refine ih (pairKey c1.1 c2.1 :: included) ?_ hnodup' pr hpr'
              halign r hcomp hflag
            intro pr' h hmem
            rcases List.mem_cons.mp hmem with heq | hmem'
            · have hhead : pairKey c1.1 c2.1 ∉
                  rest.map fun pr => pairKey pr.1.1 pr.2.1 :=
                (List.nodup_cons.mp (by simpa using hnodup)).1
              exact hhead (heq ▸ List.mem_map_of_mem _ h)
            · exact hnotin' pr' h hmem'
          · rw [if_neg hflag₀]
            exact ih included hnotin' hnodup' pr hpr' halign r hcomp hflag

/-! ## Claim C8: the inclusion rule -/

/-- A close-price table whose symbol names make two DISTINCT unordered
pairs collide on the separator-less dedup key:
`sorted(["A","BC"]) -> "ABC"` and `sorted(["AB","C"]) -> "ABC"`. -/
def tableKeyClash : List PriceColumn :=
  [("A", [some 1, some 2]), ("AB", [some 1, some 2]),
    ("BC", [some 1, some 2]), ("C", [some 1, some 2])]

/-- C8, counterexample.  On `tableKeyClash` with a backend reporting
every pair as cointegrated (p = 0 < 0.5 and t = -1 < c = 0), the pair
`("AB", "C")` is tested and satisfies the inclusion criterion, yet it is
absent from the candidate list: its dedup key `"ABC"` collides with the
key of the earlier pair `("A", "BC")`, so the "if" direction of the
claimed iff fails. -/
theorem c8_key_collision_counterexample :
    pairKey "A" "BC" = pairKey "AB" "C" ∧
    (backend0 ((alignPair [some 1, some 2] [some 1, some 2]).map Prod.fst)
      ((alignPair [some 1, some 2] [some 1, some 2]).map Prod.snd) =
        .ok (-1, 0, 0) ∧ (0 : ℚ) < 1 / 2 ∧ (-1 : ℚ) < 0) ∧
    ((get_cointegrated_pairs backend0 tableKeyClash).map fun e =>
      (e.sym_1, e.sym_2)) =
      [("A", "AB"), ("A", "BC"), ("A", "C"), ("AB", "BC"), ("BC", "C")] ∧
    ¬∃ e ∈ get_cointegrated_pairs backend0 tableKeyClash,
      e.sym_1 = "AB" ∧ e.sym_2 = "C" := by
  refine ⟨by decide, ⟨rfl, by decide, by decide⟩, by decide, by decide⟩

/-- C8, amended.  A pair is included in the candidate list only if its
computation succeeded with raw statistics satisfying
`p_value < 0.5 ∧ t_stat < critical_value_95`; conversely a tested pair
(nonempty alignment, successful computation) meeting that criterion is
included provided the dedup keys of the enumerated pairs are pairwise
distinct (true for real exchange symbol names; a key collision between
distinct unordered pairs makes the later pair be skipped). -/
theorem c8_inclusion_rule (backend : CointBackend)
    (close_df : List PriceColumn) :
    (∀ e ∈ get_cointegrated_pairs backend close_df,
      ∃ pr ∈ indexPairs close_df, e.sym_1 = pr.1.1 ∧ e.sym_2 = pr.2.1 ∧
        ∃ t p c, backend ((alignPair pr.1.2 pr.2.2).map Prod.fst)
            ((alignPair pr.1.2 pr.2.2).map Prod.snd) = .ok (t, p, c) ∧
          p < 1 / 2 ∧ t < c) ∧
    (((indexPairs close_df).map fun pr => pairKey pr.1.1 pr.2.1).Nodup →
      ∀ pr ∈ indexPairs close_df, alignPair pr.1.2 pr.2.2 ≠ [] →
      ∀ t p c, backend ((alignPair pr.1.2 pr.2.2).map Prod.fst)
          ((alignPair pr.1.2 pr.2.2).map Prod.snd) = .ok (t, p, c) →
        p < 1 / 2 → t < c →
        ∃ e ∈ get_cointegrated_pairs backend close_df,
          e.sym_1 = pr.1.1 ∧ e.sym_2 = pr.2.1) := by
  constructor
  · intro e he
    have he' : e ∈ scanAux backend (indexPairs close_df) [] :=
      (List.perm_insertionSort _ _).mem_iff.mp he
    obtain ⟨pr, hpr, h1, h2, halign, hcomp, hflag⟩ := scanAux_mem he'
    rw [calculate_cointegration_aligned] at hcomp
    cases hb : backend ((alignPair pr.1.2 pr.2.2).map Prod.fst)
        ((alignPair pr.1.2 pr.2.2).map Prod.snd) with
    | error err =>
      rw [hb] at hcomp
      exact absurd hcomp (by simp)
    | ok stats =>
      obtain ⟨t, p, c⟩ := stats
      refine ⟨pr, hpr, h1, h2, t, p, c, hb, ?_⟩
      rw [hb] at hcomp
      simp only [Except.ok.injEq] at hcomp
      rw [← hcomp] at hflag
      exact of_decide_eq_true hflag
  · intro hnodup pr hpr halign t p c hb hp ht
    have hcomp : calculate_cointegration backend
        ((alignPair pr.1.2 pr.2.2).map Prod.fst)
        ((alignPair pr.1.2 pr.2.2).map Prod.snd) =
        .ok { flag := decide (p < 1 / 2 ∧ t < c)
              p_value := round2 p
              t_value := round2 t
              c_value := round2 c
              hedge_ratio := round2 (olsNoIntercept
                ((alignPair pr.1.2 pr.2.2).map Prod.fst)
                ((alignPair pr.1.2 pr.2.2).map Prod.snd))
              zero_crossings := zeroCrossings (calculate_spread
                ((alignPair pr.1.2 pr.2.2).map Prod.fst)
                ((alignPair pr.1.2 pr.2.2).map Prod.snd)
                (olsNoIntercept ((alignPair pr.1.2 pr.2.2).map Prod.fst)
                  ((alignPair pr.1.2 pr.2.2).map Prod.snd))) } := by
      rw [calculate_cointegration_aligned, hb]
    refine ⟨⟨pr.1.1, pr.2.1, _⟩,
      (List.perm_insertionSort _ _).mem_iff.mpr
        (scanAux_complete backend (indexPairs close_df) []
          (by simp) hnodup pr hpr halign _ hcomp
          (decide_eq_true ⟨hp, ht⟩)), rfl, rfl⟩

/-- C8 witness: the amended theorem's "if" direction at the sorted
two-column table, whose single pair qualifies and is included. -/
theorem c8_inclusion_rule_witness :
    (((indexPairs [(("A" : String), [some (1 : ℚ), some 3, some 4]),
      ("B", [some 1, some 2, some 5])]).map fun pr =>
        pairKey pr.1.1 pr.2.1).Nodup) ∧
    ∃ e ∈ get_cointegrated_pairs backend0
      [("A", [some 1, some 3, some 4]), ("B", [some 1, some 2, some 5])],
      e.sym_1 = ("A", [some (1 : ℚ), some 3, some 4]).1 ∧
      e.sym_2 = ("B", [some (1 : ℚ), some 2, some 5]).1 :=
  ⟨by decide,
    (c8_inclusion_rule backend0
      [("A", [some 1, some 3, some 4]), ("B", [some 1, some 2, some 5])]).2
      (by decide)
      ((("A" : String), [some (1 : ℚ), some 3, some 4]),
        (("B" : String), [some (1 : ℚ), some 2, some 5]))
      (by decide) (by decide) (-1) 0 0 rfl (by decide) (by decide)⟩

/-! ## Claim C9: per-pair errors are caught and skipped -/

/-- Whether the per-pair computation of a column pair raises: the pair
is reached (nonempty alignment, line 99-100 does not `continue` past it)
and the statistics computation throws — the situation handled by the
`except` clause of lines 122-123. -/
def pairRaises (backend : CointBackend) (pr : PriceColumn × PriceColumn) :
    Bool :=
  !decide (alignPair pr.1.2 pr.2.2 = []) &&
    match calculate_cointegration backend
        ((alignPair pr.1.2 pr.2.2).map Prod.fst)
        ((alignPair pr.1.2 pr.2.2).map Prod.snd) with
    | .error _ => true
    | .ok _ => false

/-- The scan loop treats a raising pair exactly as if it were not
enumerated at all: per-pair errors are caught, the pair is skipped, and
the remaining pairs are processed unchanged. -/
theorem scanAux_skips_raises (backend : CointBackend) :
    ∀ (pairs : List (PriceColumn × PriceColumn)) (included : List String),
      scanAux backend pairs included =
        scanAux backend (pairs.filter fun pr => !pairRaises backend pr)
          included := by
  intro pairs
  induction pairs with
  | nil => intro included; rfl
  | cons hd rest ih =>
    intro included
    obtain ⟨c1, c2⟩ := hd
    by_cases halign : alignPair c1.2 c2.2 = []
    · have hkeep : (!pairRaises backend (c1, c2)) = true := by
        simp [pairRaises, halign]
      have hfil : List.filter (fun pr => !pairRaises backend pr)
          ((c1, c2) :: rest) =
          (c1, c2) :: List.filter (fun pr => !pairRaises backend pr) rest := by
        simp [List.filter_cons, hkeep]
      rw [hfil, scanAux, if_pos halign, scanAux, if_pos halign]
      exact ih included
    · cases hcomp : calculate_cointegration backend
          ((alignPair c1.2 c2.2).map Prod.fst)
          ((alignPair c1.2 c2.2).map Prod.snd) with
      | error err =>
        have hdrop : (!pairRaises backend (c1, c2)) = false := by
          simp [pairRaises, halign, hcomp]
        have hfil : List.filter (fun pr => !pairRaises backend pr)
            ((c1, c2) :: rest) =
            List.filter (fun pr => !pairRaises backend pr) rest := by
          simp [List.filter_cons, hdrop]
        rw [hfil, scanAux, if_neg halign]
        simp only [hcomp]
        exact ih included
      | ok r =>
        have hkeep : (!pairRaises backend (c1, c2)) = true := by
          simp [pairRaises, halign, hcomp]
        have hfil : List.filter (fun pr => !pairRaises backend pr)
            ((c1, c2) :: rest) =
            (c1, c2) :: List.filter (fun pr => !pairRaises backend pr) rest := by
          simp [List.filter_cons, hkeep]
        rw [hfil, scanAux, if_neg halign, scanAux, if_neg halign]
        simp only [hcomp]
        by_cases hflag : r.flag = true
        · simp only [if_pos hflag]
          by_cases hkey : pairKey c1.1 c2.1 ∈ included
          · simp only [if_pos hkey]
            exact ih included
          · simp only [if_neg hkey]
            rw [ih (pairKey c1.1 c2.1 :: included)]
        · simp only [if_neg hflag]
          exact ih included

/-- C9, confirmed.  For every input price table and backend, the scan is
a total function returning a candidate list, and its result equals the
scan of the price table with every raising pair removed from the
enumeration: an exception while computing one pair's cointegration
statistics is caught and only skips that pair; it never aborts the scan
or affects the remaining pairs. -/
theorem c9_per_pair_errors_skipped (backend : CointBackend)
    (close_df : List PriceColumn) :
    get_cointegrated_pairs backend close_df =
      List.insertionSort
        (fun a b => b.res.zero_crossings ≤ a.res.zero_crossings)
        (scanAux backend
          ((indexPairs close_df).filter fun pr => !pairRaises backend pr)
          []) := by
  rw [get_cointegrated_pairs, scanAux_skips_raises]

/-! ## Claim C10: stored statistics are rounded to 2 decimals -/

/-- `process_pairs` (`func_rank_zscore.py`, lines 34-73): the spread of
a stored candidate row is computed from the STORED hedge ratio
(`row['hedge_ratio']`, read back from the CSV), and the pair's rolling
z-score series from that spread. -/
noncomputable def process_pair_zscore (row : Entry)
    (c1 c2 : List (Option ℚ)) : List (Option ℝ) :=
  calculate_zscore ((alignPair c1 c2).map fun p =>
    p.1 - p.2 * row.res.hedge_ratio)

/-- C10, confirmed.  Every statistic returned by
`calculate_cointegration` (p-value, test statistic, critical value,
hedge ratio) is a multiple of 1/100 — rounded to 2 decimal places before
being stored — and on aligned input the stored hedge ratio is exactly
`round2` of the raw OLS estimate (the value `process_pair_zscore`
consumes for the spread and z-scores); the persisted per-pair
mean_zscore and half_life are likewise multiples of 1/100; and the
monitor's take-profit comparison consumes the rounded mean
(`check_positions` receives `round2` of the raw column mean). -/
theorem c10_two_decimal_rounding :
    (∀ (backend : CointBackend) (s1 s2 : List ℚ) (r : CointResult),
      calculate_cointegration backend s1 s2 = .ok r →
      (∃ k : ℤ, r.p_value = k / 100) ∧ (∃ k : ℤ, r.t_value = k / 100) ∧
      (∃ k : ℤ, r.c_value = k / 100) ∧ (∃ k : ℤ, r.hedge_ratio = k / 100)) ∧
    (∀ (backend : CointBackend) (c1 c2 : List (Option ℚ)) (r : CointResult),
      calculate_cointegration backend ((alignPair c1 c2).map Prod.fst)
        ((alignPair c1 c2).map Prod.snd) = .ok r →
      r.hedge_ratio = round2 (olsNoIntercept
        ((alignPair c1 c2).map Prod.fst) ((alignPair c1 c2).map Prod.snd))) ∧
    (∀ (col : List (Option ℚ)) (m : ℚ),
      mean_zscore_produced col = some m → ∃ k : ℤ, m = k / 100) ∧
    (∀ (col : List (Option ℚ)) (h : ℝ),
      halflife_produced col = some h → ∃ k : ℤ, h = (k : ℝ) / 100) ∧
    (∀ (col : List (Option ℚ)) (pnl z m₀ : ℚ), pandasMean col = some m₀ →
      (mean_zscore_produced col).map
        (fun m => check_positions pnl (some z) m) =
        some (check_positions pnl (some z) (round2 m₀))) := by
  refine ⟨?_, ?_, ?_, ?_, ?_⟩
  · intro backend s1 s2 r hcomp
    rw [calculate_cointegration_def] at hcomp
    cases hb : backend (s1.take (min s1.length s2.length))
        (s2.take (min s1.length s2.length)) with
    | error err =>
      rw [hb] at hcomp
      exact absurd hcomp (by simp)
    | ok stats =>
      obtain ⟨t, p, c⟩ := stats
      rw [hb] at hcomp
      simp only [Except.ok.injEq] at hcomp
      rw [← hcomp]
      exact ⟨⟨round (p * 100), rfl⟩, ⟨round (t * 100), rfl⟩,
        ⟨round (c * 100), rfl⟩,
        ⟨round (olsNoIntercept (s1.take (min s1.length s2.length))
          (s2.take (min s1.length s2.length)) * 100), rfl⟩⟩
  · intro backend c1 c2 r hcomp
    rw [calculate_cointegration_aligned] at hcomp
    cases hb : backend ((alignPair c1 c2).map Prod.fst)
        ((alignPair c1 c2).map Prod.snd) with
    | error err =>
      rw [hb] at hcomp
      exact absurd hcomp (by simp)
    | ok stats =>
      obtain ⟨t, p, c⟩ := stats
      rw [hb] at hcomp
      simp only [Except.ok.injEq] at hcomp
      rw [← hcomp]
  · intro col m hm
    rw [mean_zscore_produced] at hm
    cases hp : pandasMean col with
    | none =>
      rw [hp] at hm
      exact absurd hm (by simp)
    | some m₀ =>
      rw [hp] at hm
      have hm2 : round2 m₀ = m := by simpa using hm
      exact ⟨round (m₀ * 100), by rw [← hm2]; rfl⟩
  · intro col h hh
    rw [halflife_produced] at hh
    cases hl : calculate_half_life col with
    | none =>
      rw [hl] at hh
      exact absurd hh (by simp)
    | some h₀ =>
      rw [hl] at hh
      have hh2 : round2R h₀ = h := by simpa using hh
      exact ⟨round (h₀ * 100), by rw [← hh2]; rfl⟩
  · intro col pnl z m₀ hm
    rw [mean_zscore_produced, hm]
    rfl

/-- C10 witness: the theorem applied at the one-entry z-score column
`[0.006]`, whose persisted mean is `0.01 = 1/100` and whose take-profit
comparison receives `round2 0.006`. -/
theorem c10_two_decimal_rounding_witness :
    (mean_zscore_produced [some (6 / 1000)] = some (1 / 100) ∧
      ∃ k : ℤ, (1 / 100 : ℚ) = k / 100) ∧
    (pandasMean [some (6 / 1000)] = some (6 / 1000) ∧
      (mean_zscore_produced [some (6 / 1000)]).map
        (fun m => check_positions 0 (some 0) m) =
        some (check_positions 0 (some 0) (round2 (6 / 1000)))) :=
  ⟨⟨by decide,
    c10_two_decimal_rounding.2.2.1 [some (6 / 1000)] (1 / 100) (by decide)⟩,
    ⟨by decide,
      c10_two_decimal_rounding.2.2.2.2 [some (6 / 1000)] 0 0 (6 / 1000)
        (by decide)⟩⟩

end StatArb
